import Mathlib

/-!
# Verification of `ShiftedBetaSurvival/ShiftedBeta.py`

A shallow embedding of the shifted-beta-geometric survival model class
`ShiftedBeta` and proofs about it.  Python floats are embedded as exact
rationals (`ℚ`); the transcendental functions `numpy.exp` and `numpy.log`
are passed as explicit function parameters, since every claim about the
likelihood code is structural (the same function appears on both sides of
each identity).  A raised Python exception is embedded as `none` in an
`Option`-valued result.  A small IEEE-special-value model (`NFl`) is used
where a claim is about `-inf`/NaN propagation in `numpy` arithmetic.
-/

namespace ShiftedBeta

/-- Value stored by `_recursive_retention_stats` at index `t ≥ 1` of the churn
list `p`.  The Python loop (`ShiftedBeta.py` lines 122-125) appends
`(beta + t - 2) / (alpha + beta + t - 1) * p[t-1]` for `t = 2, 3, ...`, with
base case `p[1] = alpha / (alpha + beta)` (line 119); `p[t-1]` is always the
value appended at the previous iteration, so the list entries satisfy this
recursion.  Index `0` holds Python `None` and is never produced by this
function (the `0` branch is dead). -/
def churnP (alpha beta : ℚ) : ℕ → ℚ
  | 0 => 0
  | 1 => alpha / (alpha + beta)
  | t + 2 =>
      (beta + ((t : ℚ) + 2) - 2) / (alpha + beta + ((t : ℚ) + 2) - 1) *
        churnP alpha beta (t + 1)

/-- Value stored by `_recursive_retention_stats` at index `t ≥ 1` of the
survival list `s`: base case `s[1] = 1 - p[1]` (line 120) and
`s[t] = s[t-1] - p[t]` appended for `t = 2, 3, ...` (line 128).  Index `0`
holds Python `None` and is never produced (the `0` branch is dead). -/
def survivalS (alpha beta : ℚ) : ℕ → ℚ
  | 0 => 0
  | 1 => 1 - churnP alpha beta 1
  | t + 2 => survivalS alpha beta (t + 1) - churnP alpha beta (t + 2)

/-- Embedding of the static method `_recursive_retention_stats` (lines
118-131).  The Python lists start as `[None, p1]` / `[None, s1]` and the loop
`for t in range(2, num_periods)` appends one entry per `t`, so the result is
`None` at index `0`, the base case at index `1`, and the loop values at
indices `2 .. num_periods - 1`; `num_periods - 2` here is truncated natural
subtraction, matching `range(2, num_periods)` being empty for
`num_periods < 2`.  Python `None` is embedded as `none`. -/
def _recursive_retention_stats (alpha beta : ℚ) (num_periods : ℕ) :
    List (Option ℚ) × List (Option ℚ) :=
  (none :: some (churnP alpha beta 1) ::
      (List.range (num_periods - 2)).map (fun k => some (churnP alpha beta (k + 2))),
   none :: some (survivalS alpha beta 1) ::
      (List.range (num_periods - 2)).map (fun k => some (survivalS alpha beta (k + 2))))

/-- Reads entry `t` of the churn list returned by
`_recursive_retention_stats alpha beta n`, defaulting to `0` when the entry
is absent or `None` (the defaults never fire at the indices the claims
quantify over). -/
def pAt (alpha beta : ℚ) (n t : ℕ) : ℚ :=
  (((_recursive_retention_stats alpha beta n).1).getD t none).getD 0

/-- Reads entry `t` of the survival list returned by
`_recursive_retention_stats alpha beta n`, defaulting to `0` when the entry
is absent or `None`. -/
def sAt (alpha beta : ℚ) (n t : ℕ) : ℚ :=
  (((_recursive_retention_stats alpha beta n).2).getD t none).getD 0

/-- Closed form used only in proofs: the product
`∏ j < t, (beta + j) / (alpha + beta + j)`, which the recursion's survival
sequence equals at index `t ≥ 1`. -/
def sProd (alpha beta : ℚ) (t : ℕ) : ℚ :=
  ∏ j in Finset.range t, (beta + (j : ℚ)) / (alpha + beta + (j : ℚ))

/-- Embedding of `indicator_map` (lines 71-86) for the category at ordinal
index `i` out of `n_cats` categories: an all-`False` boolean vector
(`numpy.zeros(n_cats, dtype=bool)`), then `bool_ind[0] = True`, then
`bool_ind[i] = True`. -/
def indicator_map (n_cats i : ℕ) : List Bool :=
  ((List.replicate n_cats false).set 0 true).set i true

/-- Embedding of numpy boolean-mask selection followed by `.sum()`:
`coeff[bool_ind].sum()` adds the entries of `coeff` whose mask entry is
`True` (lines 163-164). -/
def maskedSum (coeff : List ℚ) (bool_ind : List Bool) : ℚ :=
  ((List.zip coeff bool_ind).map (fun p => if p.2 then p.1 else 0)).sum

/-- Python list indexing `l[i]` with its negative-index convention:
`l[-k]` reads `k` entries from the end; an out-of-range index raises
`IndexError`, embedded as `none`. -/
def pyGetElem {α : Type} (l : List α) (i : Int) : Option α :=
  if 0 ≤ i then l[i.toNat]?
  else if (-i).toNat ≤ l.length then l[l.length - (-i).toNat]? else none

/-- Embedding of the per-cohort body of the loop in `_logp` (lines 169-200)
for one cohort `(active, lost)` at reconstructed parameters
`alpha`, `beta`.  `length = len(active)`;
`died = numpy.log(pt[1:length]) * lost[1:length]` summed (the slice never
raises, and every sliced `pt` entry is a number, so `died` is computed
pointwise on values); `still_active = numpy.log(sf[length - 1]) *
active[length - 1]`.  Raised exceptions are embedded as `none`: for
`length = 1`, `sf[0]` is Python `None` and `numpy.log(None)` raises a
`TypeError` (the inner `Option.bind`); for `length = 0`, `active[-1]` on the
empty list raises an `IndexError` (`pyGetElem` is `none`).  The result on
success is `sum(died) + still_active`. -/
def cohortLL (log : ℚ → ℚ) (alpha beta : ℚ) (active lost : List ℚ) : Option ℚ :=
  let length := active.length
  let died : ℚ := ∑ t in Finset.Ico 1 length, log (pAt alpha beta length t) * lost.getD t 0
  (pyGetElem (_recursive_retention_stats alpha beta length).2 ((length : Int) - 1)).bind
    (fun sfv => sfv.bind (fun sfq =>
      (pyGetElem active ((length : Int) - 1)).map (fun act => died + log sfq * act)))

/-- Accumulation of `Option`-valued log-likelihood contributions, embedding
the Python `log_like += ...` loops of `_logp`: any raised exception aborts
the whole evaluation (`none`); otherwise the contributions are summed. -/
def sumLLs {α : Type} (f : α → Option ℚ) : List α → Option ℚ
  | [] => some 0
  | x :: xs => (f x).bind (fun v => (sumLLs f xs).map (fun r => v + r))

/-- Embedding of the per-category body of `_logp` (lines 159-200): look up
the category's indicator vector, reconstruct
`alpha_comb = numpy.exp(alpha[bool_ind].sum())` and
`beta_comb = numpy.exp(beta[bool_ind].sum())`, then accumulate `cohortLL`
over the category's cohort list. -/
def categoryLL (log exp : ℚ → ℚ) (alpha beta : List ℚ) (bool_ind : List Bool)
    (cohorts : List (List ℚ × List ℚ)) : Option ℚ :=
  let alpha_comb := exp (maskedSum alpha bool_ind)
  let beta_comb := exp (maskedSum beta bool_ind)
  sumLLs (fun c => cohortLL log alpha_comb beta_comb c.1 c.2) cohorts

/-- Embedding of `_logp` (lines 133-203).  The dataset is passed as a list of
pairs (category's `imap` indicator vector, category's cohort list); the
Python `dict` iteration order is immaterial because the contributions are
summed.  Returns minus the accumulated log-likelihood (line 203), or `none`
when the evaluation raises. -/
def _logp (log exp : ℚ → ℚ) (alpha beta : List ℚ)
    (data : List (List Bool × List (List ℚ × List ℚ))) : Option ℚ :=
  (sumLLs (fun cat => categoryLL log exp alpha beta cat.1 cat.2) data).map (fun v => -v)

/-- Model of an IEEE-754 double for the special-value propagation in
`numpy`: NaN, the two infinities, and finite values (as exact rationals). -/
inductive NFl where
  | nan : NFl
  | neginf : NFl
  | posinf : NFl
  | fin : ℚ → NFl
deriving DecidableEq

/-- IEEE behaviour of `numpy.log` on the nonnegative finite inputs arising in
`_logp`: `numpy.log(0.) = -inf` (with only a runtime warning; evaluation
continues), and a positive input gives a finite logarithm (abstracted by the
function parameter `log`). -/
def flog (log : ℚ → ℚ) (x : ℚ) : NFl :=
  if x = 0 then NFl.neginf else NFl.fin (log x)

/-- IEEE-754 multiplication on `NFl`: NaN propagates, and an infinity times
zero is NaN. -/
def fmul : NFl → NFl → NFl
  | NFl.nan, _ => NFl.nan
  | _, NFl.nan => NFl.nan
  | NFl.neginf, NFl.neginf => NFl.posinf
  | NFl.neginf, NFl.posinf => NFl.neginf
  | NFl.posinf, NFl.neginf => NFl.neginf
  | NFl.posinf, NFl.posinf => NFl.posinf
  | NFl.neginf, NFl.fin q => if q = 0 then NFl.nan else if 0 < q then NFl.neginf else NFl.posinf
  | NFl.fin q, NFl.neginf => if q = 0 then NFl.nan else if 0 < q then NFl.neginf else NFl.posinf
  | NFl.posinf, NFl.fin q => if q = 0 then NFl.nan else if 0 < q then NFl.posinf else NFl.neginf
  | NFl.fin q, NFl.posinf => if q = 0 then NFl.nan else if 0 < q then NFl.posinf else NFl.neginf
  | NFl.fin q, NFl.fin r => NFl.fin (q * r)

/-- IEEE-754 addition on `NFl`: NaN propagates and `-inf + inf` is NaN. -/
def fadd : NFl → NFl → NFl
  | NFl.nan, _ => NFl.nan
  | _, NFl.nan => NFl.nan
  | NFl.neginf, NFl.posinf => NFl.nan
  | NFl.posinf, NFl.neginf => NFl.nan
  | NFl.neginf, NFl.neginf => NFl.neginf
  | NFl.neginf, NFl.fin _ => NFl.neginf
  | NFl.fin _, NFl.neginf => NFl.neginf
  | NFl.posinf, NFl.posinf => NFl.posinf
  | NFl.posinf, NFl.fin _ => NFl.posinf
  | NFl.fin _, NFl.posinf => NFl.posinf
  | NFl.fin q, NFl.fin r => NFl.fin (q + r)

/-- IEEE-value model of line 193,
`died = numpy.log(pt[1:length]) * lost[1:length]`: the elementwise product of
the logarithms of the sliced churn probabilities (as the floats they are at
runtime, where an extreme parameter value can underflow an entry to exactly
`0.0`) with the sliced lost counts.  No zero-count guard appears in the
source: every term is `log(p) * l` regardless of `l`. -/
def diedF (log : ℚ → ℚ) (ptVals lostVals : List ℚ) : List NFl :=
  List.zipWith (fun p l => fmul (flog log p) (NFl.fin l)) ptVals lostVals

/-- IEEE-value model of `sum(died)` (line 200): fold of IEEE addition over
the term list, starting from `0.0`. -/
def fsum (l : List NFl) : NFl :=
  l.foldl fadd (NFl.fin 0)

/-- Result object returned by `scipy.optimize.minimize` as read by `fit`
(lines 228-242): the achieved objective value (`.fun`; `fun` is reserved in
Lean, so the field is `fval`), the solution vector (`.x`), and the
convergence flag (`.success`) — which `fit` never reads. -/
structure OptResult where
  fval : ℚ
  x : List ℚ
  success : Bool

/-- CPython 2 evaluation of `new_opt > optimal` (line 240): `new_opt` is a
`scipy.optimize.OptimizeResult` (a `dict` subclass) while `optimal` holds a
float.  CPython 2's mixed-type default comparison orders every number before
every non-numeric object, so the comparison is `True` for every result and
every stored objective value. -/
def py2GtResultFloat (_new_opt : OptResult) (_optimal : ℚ) : Bool :=
  true

/-- One iteration of the restart loop of `fit` (lines 224-242), acting on the
pair `(optimal, self.opt)` (`none` while both are still Python `None`):
first the `if optimal is None` block stores the first result, then the
separate (not `elif`) `if new_opt > optimal` block overwrites the stored pair
whenever the Python 2 comparison is true. -/
def fitStep (acc : Option (ℚ × List ℚ)) (new_opt : OptResult) : Option (ℚ × List ℚ) :=
  let acc' := match acc with
    | none => some (new_opt.fval, new_opt.x)
    | some o => some o
  match acc' with
  | some (optimal, xv) =>
      if py2GtResultFloat new_opt optimal then some (new_opt.fval, new_opt.x)
      else some (optimal, xv)
  | none => none

/-- The whole restart loop of `fit`: fold `fitStep` over the list of
minimizer results (one per initial guess, in order), starting from the
`optimal = None`, `self.opt = None` state. -/
def fitSelect (results : List OptResult) : Option (ℚ × List ℚ) :=
  results.foldl fitStep none

/-- What `fit` publishes after the restart loop (lines 244-251): the stored
coefficient vector `self.opt`, from which all per-category parameters are
reconstructed.  When no restart ran, `self.opt` is still Python `None` and
the reconstruction `self.opt[:self.n_cats]` raises a `TypeError`, embedded
as `none`. -/
def fitPublish (results : List OptResult) : Option (List ℚ) :=
  (fitSelect results).map Prod.snd

/-! ## Basic facts about the recursion's output lists -/

lemma rrs_fst_length (a b : ℚ) (n : ℕ) :
    ((_recursive_retention_stats a b n).1).length = max 2 n := by
  simp [_recursive_retention_stats]
  omega

lemma rrs_snd_length (a b : ℚ) (n : ℕ) :
    ((_recursive_retention_stats a b n).2).length = max 2 n := by
  simp [_recursive_retention_stats]
  omega

lemma rrs_fst_getD (a b : ℚ) (n t : ℕ) (h1 : 1 ≤ t) (h2 : t < max 2 n) :
    ((_recursive_retention_stats a b n).1).getD t none = some (churnP a b t) := by
  match t, h1 with
  | 1, _ => rfl
  | (k + 2), _ =>
    have hk : k < n - 2 := by omega
    simp [_recursive_retention_stats, List.getD_eq_getElem?_getD,
      List.getElem?_map, List.getElem?_range, hk]

lemma rrs_snd_getD (a b : ℚ) (n t : ℕ) (h1 : 1 ≤ t) (h2 : t < max 2 n) :
    ((_recursive_retention_stats a b n).2).getD t none = some (survivalS a b t) := by
  match t, h1 with
  | 1, _ => rfl
  | (k + 2), _ =>
    have hk : k < n - 2 := by omega
    simp [_recursive_retention_stats, List.getD_eq_getElem?_getD,
      List.getElem?_map, List.getElem?_range, hk]

lemma pAt_eq (a b : ℚ) (n t : ℕ) (h1 : 1 ≤ t) (h2 : t < max 2 n) :
    pAt a b n t = churnP a b t := by
  rw [pAt, rrs_fst_getD a b n t h1 h2, Option.getD_some]

lemma sAt_eq (a b : ℚ) (n t : ℕ) (h1 : 1 ≤ t) (h2 : t < max 2 n) :
    sAt a b n t = survivalS a b t := by
  rw [sAt, rrs_snd_getD a b n t h1 h2, Option.getD_some]

/-! ## Closed forms and sign facts for the recursion values -/

lemma sProd_pos (a b : ℚ) (ha : 0 < a) (hb : 0 < b) (t : ℕ) :
    0 < sProd a b t := by
  apply Finset.prod_pos
  intro j _
  have hj : (0 : ℚ) ≤ (j : ℚ) := by positivity
  apply div_pos <;> linarith

lemma sProd_succ (a b : ℚ) (t : ℕ) :
    sProd a b (t + 1) = sProd a b t * ((b + (t : ℚ)) / (a + b + (t : ℚ))) := by
  rw [sProd, Finset.prod_range_succ]
  rfl

lemma churnP_closed (a b : ℚ) (ha : 0 < a) (hb : 0 < b) (t : ℕ) :
    churnP a b (t + 1) = a / (a + b + (t : ℚ)) * sProd a b t := by
  induction t with
  | zero => simp [churnP, sProd]
  | succ k ih =>
    have hk : (0 : ℚ) ≤ (k : ℚ) := by positivity
    have h1 : a + b + (k : ℚ) ≠ 0 := by nlinarith
    have h2 : a + b + (k : ℚ) + 1 ≠ 0 := by nlinarith
    have hstep : churnP a b (k + 2) =
        (b + ((k : ℚ) + 2) - 2) / (a + b + ((k : ℚ) + 2) - 1) * churnP a b (k + 1) := rfl
    rw [show k + 1 + 1 = k + 2 from rfl, hstep, ih, sProd_succ]
    have e1 : b + ((k : ℚ) + 2) - 2 = b + (k : ℚ) := by ring
    have e2 : a + b + ((k : ℚ) + 2) - 1 = a + b + (k : ℚ) + 1 := by ring
    rw [e1, e2]
    push_cast
    ring

lemma survivalS_closed (a b : ℚ) (ha : 0 < a) (hb : 0 < b) (t : ℕ) :
    survivalS a b (t + 1) = sProd a b (t + 1) := by
  induction t with
  | zero =>
    have h1 : a + b ≠ 0 := by nlinarith
    simp [survivalS, churnP, sProd, Finset.prod_range_one]
    field_simp
  | succ k ih =>
    have hk : (0 : ℚ) ≤ (k : ℚ) := by positivity
    have h1 : a + b + ((k : ℚ) + 1) ≠ 0 := by nlinarith
    have hstep : survivalS a b (k + 2) =
        survivalS a b (k + 1) - churnP a b (k + 2) := rfl
    have hc : churnP a b (k + 2) = a / (a + b + ((k : ℚ) + 1)) * sProd a b (k + 1) := by
      have := churnP_closed a b ha hb (k + 1)
      push_cast at this
      exact this
    rw [show k + 1 + 1 = k + 2 from rfl, hstep, ih, hc, sProd_succ a b (k + 1)]
    push_cast
    field_simp
    ring

lemma churnP_pos (a b : ℚ) (ha : 0 < a) (hb : 0 < b) (t : ℕ) :
    0 < churnP a b (t + 1) := by
  rw [churnP_closed a b ha hb t]
  have hk : (0 : ℚ) ≤ (t : ℚ) := by positivity
  have h1 : (0 : ℚ) < a + b + (t : ℚ) := by nlinarith
  exact mul_pos (div_pos ha h1) (sProd_pos a b ha hb t)

lemma survivalS_pos (a b : ℚ) (ha : 0 < a) (hb : 0 < b) (t : ℕ) :
    0 < survivalS a b (t + 1) := by
  rw [survivalS_closed a b ha hb t]
  exact sProd_pos a b ha hb (t + 1)

lemma survivalS_succ (a b : ℚ) (t : ℕ) (ht : 1 ≤ t) :
    survivalS a b (t + 1) = survivalS a b t - churnP a b (t + 1) := by
  match t, ht with
  | (m + 1), _ => rfl

lemma sum_churnP (a b : ℚ) (k : ℕ) (hk : 1 ≤ k) :
    ∑ t in Finset.Icc 1 k, churnP a b t = 1 - survivalS a b k := by
  induction k, hk using Nat.le_induction with
  | base => simp [survivalS, churnP]
  | succ m hm ih =>
    rw [← Nat.Ico_succ_right, Finset.sum_Ico_succ_top (by omega), Nat.Ico_succ_right,
      ih, survivalS_succ a b m hm]
    ring

/-! ## Claim theorems: the retention recursion -/

/-- C3: for every `alpha > 0`, `beta > 0` and every `num_periods ≥ 2`,
`_recursive_retention_stats` returns two sequences `P` and `S` of length
exactly `num_periods`, with index `0` unused (Python `None`),
`P[1] = alpha / (alpha + beta)`, `S[1] = 1 - P[1]`, and for every `t` from `2`
to `num_periods - 1`, `P[t] = ((beta + t - 2) / (alpha + beta + t - 1)) * P[t-1]`
and `S[t] = S[t-1] - P[t]`. -/
theorem C3_retention_recursion_contract (a b : ℚ) (ha : 0 < a) (hb : 0 < b)
    (n : ℕ) (hn : 2 ≤ n) :
    ((_recursive_retention_stats a b n).1.length = n ∧
      (_recursive_retention_stats a b n).2.length = n) ∧
    ((_recursive_retention_stats a b n).1.getD 0 (some 0) = none ∧
      (_recursive_retention_stats a b n).2.getD 0 (some 0) = none) ∧
    (pAt a b n 1 = a / (a + b) ∧ sAt a b n 1 = 1 - pAt a b n 1) ∧
    (∀ t, 2 ≤ t → t < n →
      pAt a b n t = (b + (t : ℚ) - 2) / (a + b + (t : ℚ) - 1) * pAt a b n (t - 1) ∧
      sAt a b n t = sAt a b n (t - 1) - pAt a b n t) := by
  refine ⟨⟨?_, ?_⟩, ⟨rfl, rfl⟩, ⟨?_, ?_⟩, ?_⟩
  · rw [rrs_fst_length]; omega
  · rw [rrs_snd_length]; omega
  · rw [pAt_eq a b n 1 (by omega) (by omega)]; rfl
  · rw [sAt_eq a b n 1 (by omega) (by omega), pAt_eq a b n 1 (by omega) (by omega)]; rfl
  · intro t h2 hlt
    match t, h2 with
    | (k + 2), _ =>
      have hp2 : pAt a b n (k + 2) = churnP a b (k + 2) :=
        pAt_eq a b n (k + 2) (by omega) (by omega)
      have hp1 : pAt a b n (k + 1) = churnP a b (k + 1) :=
        pAt_eq a b n (k + 1) (by omega) (by omega)
      have hs2 : sAt a b n (k + 2) = survivalS a b (k + 2) :=
        sAt_eq a b n (k + 2) (by omega) (by omega)
      have hs1 : sAt a b n (k + 1) = survivalS a b (k + 1) :=
        sAt_eq a b n (k + 1) (by omega) (by omega)
      constructor
      · rw [show k + 2 - 1 = k + 1 from rfl, hp2, hp1]
        have hstep : churnP a b (k + 2) =
            (b + ((k : ℚ) + 2) - 2) / (a + b + ((k : ℚ) + 2) - 1) * churnP a b (k + 1) := rfl
        rw [hstep]
        push_cast
        ring
      · rw [show k + 2 - 1 = k + 1 from rfl, hs2, hs1, hp2]
        rfl

/-- Witness for C3 at `alpha = 1`, `beta = 1`, `num_periods = 3`. -/
theorem C3_retention_recursion_contract_witness :
    (0 : ℚ) < 1 ∧ 2 ≤ 3 ∧
    (((_recursive_retention_stats (1 : ℚ) 1 3).1.length = 3 ∧
      (_recursive_retention_stats (1 : ℚ) 1 3).2.length = 3) ∧
     ((_recursive_retention_stats (1 : ℚ) 1 3).1.getD 0 (some 0) = none ∧
      (_recursive_retention_stats (1 : ℚ) 1 3).2.getD 0 (some 0) = none) ∧
     (pAt 1 1 3 1 = 1 / (1 + 1) ∧ sAt 1 1 3 1 = 1 - pAt 1 1 3 1) ∧
     (∀ t, 2 ≤ t → t < 3 →
       pAt 1 1 3 t = (1 + (t : ℚ) - 2) / (1 + 1 + (t : ℚ) - 1) * pAt 1 1 3 (t - 1) ∧
       sAt 1 1 3 t = sAt 1 1 3 (t - 1) - pAt 1 1 3 t)) :=
  ⟨by norm_num, by norm_num,
    C3_retention_recursion_contract 1 1 (by norm_num) (by norm_num) 3 (by norm_num)⟩

/-- C10: for every `alpha`, `beta` and every `num_periods`, including
`num_periods < 2`, `_recursive_retention_stats` unconditionally constructs the
entries at indices `0` and `1` before looping, so the returned sequences
always have length `max 2 num_periods`; in particular `num_periods = 0` and
`num_periods = 1` both give length-2 sequences. -/
theorem C10_always_base_case_lengths (a b : ℚ) (n : ℕ) :
    ((_recursive_retention_stats a b n).1.length = max 2 n ∧
     (_recursive_retention_stats a b n).2.length = max 2 n) ∧
    ((_recursive_retention_stats a b 0).1.length = 2 ∧
     (_recursive_retention_stats a b 0).2.length = 2) ∧
    ((_recursive_retention_stats a b 1).1.length = 2 ∧
     (_recursive_retention_stats a b 1).2.length = 2) :=
  ⟨⟨rrs_fst_length a b n, rrs_snd_length a b n⟩,
   ⟨by simpa using rrs_fst_length a b 0, by simpa using rrs_snd_length a b 0⟩,
   ⟨by simpa using rrs_fst_length a b 1, by simpa using rrs_snd_length a b 1⟩⟩

/-- C4: for every `alpha > 0`, `beta > 0` and every `num_periods ≥ 2`, the
sequences produced by `_recursive_retention_stats` satisfy `P[t] ≥ 0` and
`S[t] ≥ 0` for `1 ≤ t ≤ num_periods - 1`, `S` is non-increasing over `t ≥ 1`,
and the total mass `sum(P[1 .. num_periods-1]) ≤ 1`. -/
theorem C4_nonneg_monotone_mass (a b : ℚ) (ha : 0 < a) (hb : 0 < b)
    (n : ℕ) (hn : 2 ≤ n) :
    (∀ t, 1 ≤ t → t < n → 0 ≤ pAt a b n t ∧ 0 ≤ sAt a b n t) ∧
    (∀ t, 1 ≤ t → t + 1 < n → sAt a b n (t + 1) ≤ sAt a b n t) ∧
    (∑ t in Finset.Ico 1 n, pAt a b n t) ≤ 1 := by
  refine ⟨?_, ?_, ?_⟩
  · intro t h1 h2
    match t, h1 with
    | (m + 1), _ =>
      rw [pAt_eq a b n (m + 1) (by omega) (by omega),
        sAt_eq a b n (m + 1) (by omega) (by omega)]
      exact ⟨le_of_lt (churnP_pos a b ha hb m), le_of_lt (survivalS_pos a b ha hb m)⟩
  · intro t h1 h2
    rw [sAt_eq a b n (t + 1) (by omega) (by omega), sAt_eq a b n t (by omega) (by omega),
      survivalS_succ a b t h1]
    have := churnP_pos a b ha hb t
    linarith
  · have hcong : ∑ t in Finset.Ico 1 n, pAt a b n t = ∑ t in Finset.Ico 1 n, churnP a b t := by
      apply Finset.sum_congr rfl
      intro t ht
      rw [Finset.mem_Ico] at ht
      exact pAt_eq a b n t ht.1 (by omega)
    rw [hcong]
    obtain ⟨m, rfl⟩ : ∃ m, n = m + 2 := ⟨n - 2, by omega⟩
    rw [show m + 2 = (m + 1) + 1 from rfl, Nat.Ico_succ_right,
      sum_churnP a b (m + 1) (by omega)]
    have := survivalS_pos a b ha hb m
    linarith

/-- Witness for C4 at `alpha = 1`, `beta = 1`, `num_periods = 3`. -/
theorem C4_nonneg_monotone_mass_witness :
    (0 : ℚ) < 1 ∧ 2 ≤ 3 ∧
    ((∀ t, 1 ≤ t → t < 3 → 0 ≤ pAt (1 : ℚ) 1 3 t ∧ 0 ≤ sAt (1 : ℚ) 1 3 t) ∧
     (∀ t, 1 ≤ t → t + 1 < 3 → sAt (1 : ℚ) 1 3 (t + 1) ≤ sAt (1 : ℚ) 1 3 t) ∧
     (∑ t in Finset.Ico 1 3, pAt (1 : ℚ) 1 3 t) ≤ 1) :=
  ⟨by norm_num, by norm_num,
    C4_nonneg_monotone_mass 1 1 (by norm_num) (by norm_num) 3 (by norm_num)⟩

/-! ## Claim theorems: the indicator map -/

lemma indicator_map_length (n i : ℕ) : (indicator_map n i).length = n := by
  simp [indicator_map]

lemma indicator_map_getD (n i j : ℕ) (hj : j < n) :
    (indicator_map n i).getD j false = (decide (j = 0) || decide (j = i)) := by
  have hlen : j < (indicator_map n i).length := by simpa [indicator_map_length] using hj
  rw [List.getD_eq_getElem _ _ hlen]
  unfold indicator_map
  rw [List.getElem_set]
  by_cases hij : i = j
  · subst hij
    simp
  · rw [if_neg hij, List.getElem_set]
    by_cases h0 : 0 = j
    · simp [← h0]
    · rw [if_neg h0, List.getElem_replicate]
      have hj0 : ¬(j = 0) := fun h => h0 h.symm
      have hji : ¬(j = i) := fun h => hij h.symm
      simp [hj0, hji]

lemma count_true_set_replicate (m k : ℕ) (hk : k < m) :
    ((List.replicate m false).set k true).count true = 1 := by
  induction m generalizing k with
  | zero => omega
  | succ m ih =>
    cases k with
    | zero =>
      rw [List.replicate_succ]
      simp [List.count_cons, List.count_replicate]
    | succ k =>
      rw [List.replicate_succ]
      simp [List.count_cons, ih k (by omega)]

lemma indicator_map_count (n i : ℕ) (hi : i < n) :
    (indicator_map n i).count true = if i = 0 then 1 else 2 := by
  by_cases h0 : i = 0
  · subst h0
    rw [if_pos rfl]
    unfold indicator_map
    rw [List.set_set]
    exact count_true_set_replicate n 0 hi
  · rw [if_neg h0]
    obtain ⟨k, rfl⟩ : ∃ k, i = k + 1 := ⟨i - 1, by omega⟩
    obtain ⟨m, rfl⟩ : ∃ m, n = m + 1 := ⟨n - 1, by omega⟩
    unfold indicator_map
    rw [List.replicate_succ]
    simp [List.count_cons, count_true_set_replicate m k (by omega)]

/-- C8: for an ordered category set of size `n_cats`, the category at ordinal
index `i` gets a boolean vector of length `n_cats` with index `0` true and
index `i` true and all other entries false, so every vector has exactly two
true entries except the reference category `i = 0`, which has exactly one. -/
theorem C8_indicator_vector_invariant (n i : ℕ) (hi : i < n) :
    (indicator_map n i).length = n ∧
    (indicator_map n i).getD 0 false = true ∧
    (indicator_map n i).getD i false = true ∧
    (∀ j, j < n → j ≠ 0 → j ≠ i → (indicator_map n i).getD j false = false) ∧
    (indicator_map n i).count true = if i = 0 then 1 else 2 := by
  refine ⟨indicator_map_length n i, ?_, ?_, ?_, indicator_map_count n i hi⟩
  · rw [indicator_map_getD n i 0 (by omega)]
    simp
  · rw [indicator_map_getD n i i hi]
    simp
  · intro j hj hj0 hji
    rw [indicator_map_getD n i j hj]
    simp [hj0, hji]

/-- Witness for C8 at `n_cats = 3`, `i = 1`. -/
theorem C8_indicator_vector_invariant_witness :
    1 < 3 ∧
    ((indicator_map 3 1).length = 3 ∧
     (indicator_map 3 1).getD 0 false = true ∧
     (indicator_map 3 1).getD 1 false = true ∧
     (∀ j, j < 3 → j ≠ 0 → j ≠ 1 → (indicator_map 3 1).getD j false = false) ∧
     (indicator_map 3 1).count true = if 1 = 0 then 1 else 2) :=
  ⟨by norm_num, C8_indicator_vector_invariant 3 1 (by norm_num)⟩

/-! ## Claim theorems: the likelihood evaluation -/

lemma pyGetElem_nat {α : Type} (l : List α) (k : ℕ) :
    pyGetElem l (k : Int) = l[k]? := by
  simp [pyGetElem]

lemma cohortLL_eq (log : ℚ → ℚ) (a b : ℚ) (active lost : List ℚ)
    (h : 2 ≤ active.length) :
    cohortLL log a b active lost =
      some ((∑ t in Finset.Ico 1 active.length, log (pAt a b active.length t) * lost.getD t 0) +
        log (sAt a b active.length (active.length - 1)) *
          active.getD (active.length - 1) 0) := by
  obtain ⟨m, hm⟩ : ∃ m, active.length = m + 2 := ⟨active.length - 2, by omega⟩
  have hidx : ((active.length : Int) - 1) = ((m + 1 : ℕ) : Int) := by
    rw [hm]; push_cast; ring
  have hsf : pyGetElem (_recursive_retention_stats a b active.length).2
      ((active.length : Int) - 1) = some (some (survivalS a b (m + 1))) := by
    rw [hidx, pyGetElem_nat]
    have hlt : m + 1 < ((_recursive_retention_stats a b active.length).2).length := by
      rw [rrs_snd_length]; omega
    rw [List.getElem?_eq_getElem hlt]
    have hg := rrs_snd_getD a b active.length (m + 1) (by omega) (by rw [hm]; omega)
    rw [List.getD_eq_getElem _ _ hlt] at hg
    rw [hg]
  have hact : pyGetElem active ((active.length : Int) - 1) =
      some (active.getD (m + 1) 0) := by
    rw [hidx, pyGetElem_nat]
    have hlt : m + 1 < active.length := by omega
    rw [List.getElem?_eq_getElem hlt, List.getD_eq_getElem _ _ hlt]
  have hsAt : sAt a b active.length (active.length - 1) = survivalS a b (m + 1) := by
    rw [hm, show m + 2 - 1 = m + 1 from rfl]
    exact sAt_eq a b (m + 2) (m + 1) (by omega) (by omega)
  simp only [cohortLL, hsf, hact, Option.some_bind, Option.map_some']
  rw [hsAt, hm, show m + 2 - 1 = m + 1 from rfl]

lemma sumLLs_eq_some {α : Type} (f : α → Option ℚ) (g : α → ℚ) (l : List α)
    (h : ∀ x ∈ l, f x = some (g x)) :
    sumLLs f l = some ((l.map g).sum) := by
  induction l with
  | nil => rfl
  | cons x xs ih =>
    simp only [sumLLs]
    rw [h x (by simp), ih (fun y hy => h y (by simp [hy]))]
    simp

lemma categoryLL_eq (log exp : ℚ → ℚ) (ca cb : List ℚ) (ind : List Bool)
    (cohorts : List (List ℚ × List ℚ)) (h : ∀ c ∈ cohorts, 2 ≤ c.1.length) :
    categoryLL log exp ca cb ind cohorts =
      some ((cohorts.map (fun c =>
        (∑ t in Finset.Ico 1 c.1.length,
            c.2.getD t 0 *
              log (pAt (exp (maskedSum ca ind)) (exp (maskedSum cb ind)) c.1.length t)) +
          c.1.getD (c.1.length - 1) 0 *
            log (sAt (exp (maskedSum ca ind)) (exp (maskedSum cb ind)) c.1.length
              (c.1.length - 1)))).sum) := by
  unfold categoryLL
  apply sumLLs_eq_some
  intro c hc
  rw [cohortLL_eq log _ _ c.1 c.2 (h c hc)]
  refine congrArg some ?_
  rw [show (∑ t in Finset.Ico 1 c.1.length,
        log (pAt (exp (maskedSum ca ind)) (exp (maskedSum cb ind)) c.1.length t) *
          c.2.getD t 0) =
      ∑ t in Finset.Ico 1 c.1.length,
        c.2.getD t 0 *
          log (pAt (exp (maskedSum ca ind)) (exp (maskedSum cb ind)) c.1.length t) from
    Finset.sum_congr rfl (fun t _ => mul_comm _ _)]
  rw [mul_comm]

/-- C2: for every coefficient vector (split as its first `n` entries for alpha
and the rest for beta), `_logp` returns the negation of the sum, over every
category and every cohort, of the sum over `t = 1 .. length-1` of
`lost[t] * log(P[t])` plus `active[length-1] * log(S[length-1])`, where
`alpha`/`beta` per category are `exp` of the masked sums of the coefficient
parts selected by the category's indicator vector.  The hypothesis restricts
the statement to cohorts with at least two observed periods, where the
claim's formula is defined (shorter cohorts are the subject of C6). -/
theorem C2_logp_negated_loglikelihood (log exp : ℚ → ℚ) (n : ℕ) (p : List ℚ)
    (data : List (List Bool × List (List ℚ × List ℚ)))
    (hdata : ∀ cat ∈ data, ∀ c ∈ cat.2, 2 ≤ c.1.length) :
    _logp log exp (p.take n) (p.drop n) data =
      some (-((data.map (fun cat =>
        ((cat.2.map (fun c =>
          (∑ t in Finset.Ico 1 c.1.length,
              c.2.getD t 0 *
                log (pAt (exp (maskedSum (p.take n) cat.1))
                  (exp (maskedSum (p.drop n) cat.1)) c.1.length t)) +
            c.1.getD (c.1.length - 1) 0 *
              log (sAt (exp (maskedSum (p.take n) cat.1))
                (exp (maskedSum (p.drop n) cat.1)) c.1.length
                (c.1.length - 1)))).sum))).sum)) := by
  unfold _logp
  rw [sumLLs_eq_some _ _ data
    (fun cat hcat => categoryLL_eq log exp (p.take n) (p.drop n) cat.1 cat.2
      (hdata cat hcat))]
  rfl

/-- Witness for C2 with one category, one two-period cohort, identity `log`
and `exp`, and the coefficient vector `[0, 0]` split at `n = 1`. -/
theorem C2_logp_negated_loglikelihood_witness :
    (∀ cat ∈ [([true], [([(10 : ℚ), 8], [(0 : ℚ), 2])])], ∀ c ∈ cat.2, 2 ≤ c.1.length) ∧
    _logp id id ([(0 : ℚ), 0].take 1) ([(0 : ℚ), 0].drop 1)
        [([true], [([(10 : ℚ), 8], [(0 : ℚ), 2])])] =
      some (-(([([true], [([(10 : ℚ), 8], [(0 : ℚ), 2])])].map (fun cat =>
        ((cat.2.map (fun c =>
          (∑ t in Finset.Ico 1 c.1.length,
              c.2.getD t 0 *
                id (pAt (id (maskedSum ([(0 : ℚ), 0].take 1) cat.1))
                  (id (maskedSum ([(0 : ℚ), 0].drop 1) cat.1)) c.1.length t)) +
            c.1.getD (c.1.length - 1) 0 *
              id (sAt (id (maskedSum ([(0 : ℚ), 0].take 1) cat.1))
                (id (maskedSum ([(0 : ℚ), 0].drop 1) cat.1)) c.1.length
                (c.1.length - 1)))).sum))).sum)) :=
  ⟨by decide,
    C2_logp_negated_loglikelihood id id 1 [0, 0]
      [([true], [([(10 : ℚ), 8], [(0 : ℚ), 2])])] (by decide)⟩

/-! ## Claim theorems: observed divergences between spec and code -/

/-- C5 (refuted, code bug): line 193 computes
`numpy.log(pt[1:length]) * lost[1:length]` with no zero-count guard, so a
period whose churn probability has underflowed to exactly `0.0` and whose
lost count is `0` contributes `0 * log(0) = 0 * (-inf) = NaN`, and the NaN
propagates through the sum — contradicting the claim that a zero-count term
contributes exactly `0` and that no NaN ever enters the aggregated result.
The input is the sliced value arrays of a single such period. -/
theorem C5_zero_count_underflow_gives_nan :
    fsum (diedF id [(0 : ℚ)] [(0 : ℚ)]) = NFl.nan ∧ NFl.nan ≠ NFl.fin 0 := by
  exact ⟨rfl, by decide⟩

/-- C6 (refuted, code bug): a cohort whose series length is `1` is not
skipped: `_logp` calls the recursion with `num_periods = 1` anyway and then
evaluates `numpy.log(sf[0])` where `sf[0]` is Python `None`, raising a
`TypeError` (embedded as `none`), so a dataset containing such a cohort
aborts the whole evaluation instead of adding zero for that cohort and a
finite value for the rest. -/
theorem C6_short_cohort_aborts_evaluation :
    cohortLL id 1 1 [(100 : ℚ)] [(0 : ℚ)] = none ∧
    _logp id id [(0 : ℚ)] [(0 : ℚ)]
      [([true], [([(10 : ℚ), 8], [(0 : ℚ), 2]), ([(100 : ℚ)], [(0 : ℚ)])])] = none := by
  exact ⟨rfl, rfl⟩

/-- C1 (refuted, code bug): the restart loop's comparison `new_opt > optimal`
(line 240) compares a result object against a float, which is always `True`
under CPython 2's mixed-type ordering, so `fit` publishes the LAST restart's
solution, not the lowest-objective one: with achieved objective values
`1` then `2` it publishes the restart with objective `2`. -/
theorem C1_fit_publishes_last_restart :
    fitSelect [⟨1, [10], true⟩, ⟨2, [20], true⟩] = some (2, [20]) ∧ (1 : ℚ) < 2 := by
  exact ⟨rfl, by norm_num⟩

/-- C7 (refuted, code bug): `fit` never reads the minimizer's convergence
flag and has no exception handling, so a failed restart is NOT excluded from
selection and a run in which every restart failed still publishes that
restart's solution vector instead of raising a `FittingFailure`. -/
theorem C7_failed_restart_still_published :
    fitSelect [⟨(5 : ℚ), [3], false⟩] = some (5, [3]) ∧
    fitPublish [⟨(5 : ℚ), [3], false⟩] = some [3] := by
  exact ⟨rfl, rfl⟩

/-- C9 (refuted, code bug): `fit` performs no validation of `restarts`; with
`restarts = 0` the restart loop never runs, `self.opt` is still Python `None`
after it, and the parameter reconstruction `self.opt[:self.n_cats]` raises a
`TypeError` (embedded as `none`) — there is no `ConfigurationError` raised
before computation begins. -/
theorem C9_zero_restarts_no_configuration_error :
    fitPublish ([] : List OptResult) = none := by
  exact rfl

end ShiftedBeta
